import Mathlib

/-!
Verification of the annotation-transform utilities in
mask2former/data/parsing_utils.py (human-parsing branch of Mask2Former).

The Python module is shallowly embedded: numpy arrays become nested lists,
uint8 pixel values become Nat, float coordinates become rationals, the
external transform objects become records of abstract actions, and code
that can raise (asserts, ValueError, NameError, TypeError) is modelled by
returning the record as mutated so far together with an optional error
string, mirroring the in-place mutation semantics of the Python dict.
-/

/-! ## Array helpers (numpy slicing and slice assignment on nested lists) -/

/-- The slice m[a:b] of a list, numpy semantics: drop a, keep at most b - a. -/
def sliceRows (m : List α) (a b : Nat) : List α :=
  (m.drop a).take (b - a)

/-- Slice assignment dst[a:a+len src] = src.  In the source every such
assignment is written dst[a:b] = src with b - a equal to the length of src
(proved below for each branch), so the end index is determined by src and
the start offset suffices. -/
def assignSeg : List α → Nat → List α → List α
  | [], _, _ => []
  | x :: xs, 0, [] => x :: xs
  | _ :: xs, 0, s :: ss => s :: assignSeg xs 0 ss
  | x :: xs, a + 1, src => x :: assignSeg xs a src

/-- Two-dimensional slice assignment dst[r0:_, c0:_] = src for nested lists:
row r0 + i of dst receives src row i written at column offset c0. -/
def assignRegion : List (List α) → Nat → Nat → List (List α) → List (List α)
  | [], _, _, _ => []
  | row :: rest, 0, _, [] => row :: rest
  | row :: rest, 0, c0, s :: ss => assignSeg row c0 s :: assignRegion rest 0 c0 ss
  | row :: rest, r0 + 1, c0, src => row :: assignRegion rest r0 c0 src

/-- Shape predicate for a 2-d array given as a list of rows. -/
def shape2 (m : List (List α)) (h w : Nat) : Prop :=
  m.length = h ∧ ∀ row ∈ m, row.length = w

/-- Shape predicate for a 3-d array (image of h rows, w columns, c channels). -/
def shape3 (m : List (List (List α))) (h w c : Nat) : Prop :=
  m.length = h ∧ ∀ row ∈ m, row.length = w ∧ ∀ px ∈ row, px.length = c

/-! ## center_to_target_size -/

/-- Range (int((src - tgt) / 2), int((src + tgt) / 2)) used when the source
dimension exceeds the target: which part of the source to keep. -/
def cropRange (src tgt : Nat) : Nat × Nat :=
  ((src - tgt) / 2, (src + tgt) / 2)

/-- Range (int((tgt - src) / 2), int((src + tgt) / 2)) used when the source
dimension is at most the target: where to write inside the new canvas. -/
def padRange (src tgt : Nat) : Nat × Nat :=
  ((tgt - src) / 2, (src + tgt) / 2)

/-- Fill canvas np.ones((t1, t0, 3), dtype) * 128. -/
def fillImg (t0 t1 : Nat) : List (List (List Nat)) :=
  List.replicate t1 (List.replicate t0 (List.replicate 3 128))

/-- Fill canvas np.ones((t1, t0), dtype) * 255. -/
def fillGt (t0 t1 : Nat) : List (List Nat) :=
  List.replicate t1 (List.replicate t0 255)

/-- center_to_target_size from parsing_utils.py.  target_size is (width t0,
height t1); the source sizes are read off the arrays as in
img.shape[0], img.shape[1].  The four branches crop or pad each dimension
about the centre, with offsets computed by floor division by 2. -/
def center_to_target_size (img : List (List (List Nat))) (gt : List (List Nat))
    (target_size : Nat × Nat) : List (List (List Nat)) × List (List Nat) :=
  let tfmd_h := img.length
  let tfmd_w := (img.headD []).length
  let t0 := target_size.1
  let t1 := target_size.2
  if tfmd_h > t1 ∧ tfmd_w > t0 then
    let rh := cropRange tfmd_h t1
    let rw := cropRange tfmd_w t0
    ((sliceRows img rh.1 rh.2).map (fun row => sliceRows row rw.1 rw.2),
     (sliceRows gt rh.1 rh.2).map (fun row => sliceRows row rw.1 rw.2))
  else if tfmd_h > t1 ∧ tfmd_w ≤ t0 then
    let rh := cropRange tfmd_h t1
    let rw := padRange tfmd_w t0
    (assignRegion (fillImg t0 t1) 0 rw.1 (sliceRows img rh.1 rh.2),
     assignRegion (fillGt t0 t1) 0 rw.1 (sliceRows gt rh.1 rh.2))
  else if tfmd_h ≤ t1 ∧ tfmd_w > t0 then
    let rw := cropRange tfmd_w t0
    let rh := padRange tfmd_h t1
    (assignRegion (fillImg t0 t1) rh.1 0 (img.map (fun row => sliceRows row rw.1 rw.2)),
     assignRegion (fillGt t0 t1) rh.1 0 (gt.map (fun row => sliceRows row rw.1 rw.2)))
  else
    let rh := padRange tfmd_h t1
    let rw := padRange tfmd_w t0
    (assignRegion (fillImg t0 t1) rh.1 rw.1 img,
     assignRegion (fillGt t0 t1) rh.1 rw.1 gt)

/-! ## Transforms and flip maps -/

/-- An element of a detectron2 transform sequence, abstracted to what the
module uses: whether it is an HFlipTransform, and its actions on a box, on
a list of polygons, and on a dense mask. -/
structure Transform where
  is_hflip : Bool
  boxAct : ℚ × ℚ × ℚ × ℚ → ℚ × ℚ × ℚ × ℚ
  polyAct : List (List (ℚ × ℚ)) → List (List (ℚ × ℚ))
  segAct : List (List Bool) → List (List Bool)

/-- Number of transforms t with isinstance(t, T.HFlipTransform). -/
def countHFlip (ts : List Transform) : Nat :=
  ts.countP (fun t => t.is_hflip)

/-- One pass of the loop body: if category equals one side of the pair it
becomes the other side, tried in order with if / elif. -/
def swapIfMatch (c : Int) (p : Int × Int) : Int :=
  if c = p.1 then p.2 else if c = p.2 then p.1 else c

/-- The loop of flip_parsing_instance_category: the pairs of the flip map
applied in order to the running category value. -/
def applyFlipMap (m : List (Int × Int)) (c : Int) : Int :=
  m.foldl swapIfMatch c

/-- flip_parsing_instance_category from parsing_utils.py.  The flip map is
optional because the callers default is None; iterating None in Python
raises TypeError, which only happens when do_hflip is true. -/
def flip_parsing_instance_category (category : Int) (transforms : List Transform)
    (flip_map : Option (List (Int × Int))) : Except String Int :=
  if countHFlip transforms % 2 = 1 then
    match flip_map with
    | none => Except.error "TypeError: NoneType object is not iterable"
    | some m => Except.ok (applyFlipMap m category)
  else
    Except.ok category

/-- All label IDs occurring in the pairs of a flip map, in order. -/
def pairElems : List (Int × Int) → List Int
  | [] => []
  | p :: rest => p.1 :: p.2 :: pairElems rest

/-- Symmetric lookup as the spec words it: the first pair containing the ID
gives the other side; an ID in no pair is returned unchanged. -/
def partnerSpec : List (Int × Int) → Int → Int
  | [], c => c
  | p :: rest, c => if c = p.1 then p.2 else if c = p.2 then p.1 else partnerSpec rest c

/-! ## flip_parsing_semantic_category -/

/-- One iteration of the flip-map loop of flip_parsing_semantic_category:
the masks gt == a and gt == b are both taken before either write, so a
pixel moves a -> b or b -> a simultaneously; pointwise this is swapIfMatch. -/
def swapLabels (gt : List (List Int)) (a b : Int) : List (List Int) :=
  gt.map (List.map (fun v => swapIfMatch v (a, b)))

/-- The label-remap pass of flip_parsing_semantic_category: the pairs of the
flip map processed in order over the whole label map. -/
def remapPass (gt : List (List Int)) (m : List (Int × Int)) : List (List Int) :=
  m.foldl (fun g p => swapLabels g p.1 p.2) gt

/-- Horizontal mirroring gt[:, ::-1] of a 2-d array. -/
def hmirror (m : List (List α)) : List (List α) :=
  m.map List.reverse

/-- flip_parsing_semantic_category from parsing_utils.py, with the random
draw random.random() < prob externalized into the boolean do_hflip. -/
def flip_parsing_semantic_category (img : List (List (List Nat))) (gt : List (List Int))
    (flip_map : List (Int × Int)) (do_hflip : Bool) :
    List (List (List Nat)) × List (List Int) :=
  if do_hflip then (hmirror img, remapPass (hmirror gt) flip_map)
  else (img, gt)

/-! ## compute_parsing_IoP

The pycocotools primitives encode, area and merge are modelled by their
semantics on dense masks: area of the encoding is the number of set
pixels, and merge with intersect = True encodes the pixelwise AND. -/

/-- Number of set pixels of a binary mask (area of its run-length encoding). -/
def maskArea (m : List (List Bool)) : Nat :=
  (m.map (fun row => row.countP (fun b => b))).sum

/-- Pixelwise AND of two binary masks (merge of the encodings with
intersect = True). -/
def maskIntersect (p q : List (List Bool)) : List (List Bool) :=
  List.zipWith (List.zipWith and) p q

/-- Pixel (i, j) of a mask, false outside the bounds. -/
def maskGet (m : List (List Bool)) (i j : Nat) : Bool :=
  (m.getD i []).getD j false

/-- No pixel is set in both masks. -/
def masksDisjoint (p q : List (List Bool)) : Prop :=
  ∀ i j : Nat, maskGet p i j = false ∨ maskGet q i j = false

/-- compute_parsing_IoP from parsing_utils.py: intersection area over part
area.  The numpy float division i / area_part is non-finite when area_part
is zero; that case is modelled as none, every other case as some ratio. -/
def compute_parsing_IoP (person_binary_mask part_binary_mask : List (List Bool)) :
    Option ℚ :=
  let area_part := maskArea part_binary_mask
  let i := maskArea (maskIntersect person_binary_mask part_binary_mask)
  if area_part = 0 then none
  else some ((i : ℚ) / (area_part : ℚ))

/-! ## change_aspect_ratio -/

/-- change_aspect_ratio from parsing_utils.py: enlarge whichever of w, h is
short of the target aspect ratio; never shrink. -/
def change_aspect_ratio (w h aspect_ratio : ℚ) : ℚ × ℚ :=
  if w > aspect_ratio * h then (w, w * 1 / aspect_ratio)
  else if w < aspect_ratio * h then (h * aspect_ratio, h)
  else (w, h)

/-! ## transform_parsing_instance_annotations -/

/-- detectron2 BoxMode values used by the annotations handled here. -/
inductive BoxMode where
  | XYXY_ABS
  | XYWH_ABS
deriving DecidableEq, Repr

/-- BoxMode.convert(b, mode, BoxMode.XYXY_ABS). -/
def boxConvertToXYXY (b : ℚ × ℚ × ℚ × ℚ) : BoxMode → ℚ × ℚ × ℚ × ℚ
  | BoxMode.XYXY_ABS => b
  | BoxMode.XYWH_ABS => (b.1, b.2.1, b.1 + b.2.2.1, b.2.1 + b.2.2.2)

/-- A COCO run-length encoded mask record: size (h, w) and the alternating
run lengths, starting with a run of zeros, in column-major order. -/
structure RLE where
  size : Nat × Nat
  counts : List Nat
deriving DecidableEq, Repr

/-- mask_util.decode on a single RLE record: expand the runs column-major
into a dense h by w binary mask. -/
def rleDecode (r : RLE) : List (List Bool) :=
  let h := r.size.1
  let w := r.size.2
  let flat := (r.counts.enum.map (fun ci => List.replicate ci.2 (ci.1 % 2 == 1))).flatten
  (List.range h).map (fun i => (List.range w).map (fun j => flat.getD (j * h + i) false))

/-- The shape (h, w) of a dense mask. -/
def maskShape (m : List (List Bool)) : Nat × Nat :=
  (m.length, (m.headD []).length)

/-- The segmentation field of an annotation record: a list of flat polygon
coordinate lists, a COCO RLE dict, or a dense mask (the form the RLE branch
writes back). -/
inductive Segmentation where
  | polygons (ps : List (List ℚ))
  | rle (r : RLE)
  | maskSeg (m : List (List Bool))

/-- One instance annotation record.  extra stands for every field other
than bbox, bbox_mode, segmentation and category_id; the segmentation field
is optional because a record may lack the key. -/
structure Annotation (α : Type) where
  bbox : ℚ × ℚ × ℚ × ℚ
  bbox_mode : BoxMode
  segmentation : Option Segmentation
  category_id : Int
  extra : α

/-- TransformList.apply_box on a single box: each transform applied in order. -/
def applyBoxList (ts : List Transform) (b : ℚ × ℚ × ℚ × ℚ) : ℚ × ℚ × ℚ × ℚ :=
  ts.foldl (fun x t => t.boxAct x) b

/-- TransformList.apply_polygons: each transform applied in order. -/
def applyPolyList (ts : List Transform) (ps : List (List (ℚ × ℚ))) :
    List (List (ℚ × ℚ)) :=
  ts.foldl (fun x t => t.polyAct x) ps

/-- TransformList.apply_segmentation: each transform applied in order. -/
def applySegList (ts : List Transform) (m : List (List Bool)) : List (List Bool) :=
  ts.foldl (fun x t => t.segAct x) m

/-- np.asarray(p).reshape(-1, 2): pair up the flat coordinates; numpy raises
ValueError when the length is odd. -/
def toPoints : List ℚ → Option (List (ℚ × ℚ))
  | [] => some []
  | [_] => none
  | x :: y :: rest => (toPoints rest).map (fun ps => (x, y) :: ps)

/-- reshape(-1, 2) applied to every polygon of the list. -/
def polysToPoints : List (List ℚ) → Option (List (List (ℚ × ℚ)))
  | [] => some []
  | p :: rest =>
    match toPoints p, polysToPoints rest with
    | some ps, some rs => some (ps :: rs)
    | _, _ => none

/-- p.reshape(-1): flatten a point list back to alternating coordinates. -/
def flattenPoints : List (ℚ × ℚ) → List ℚ
  | [] => []
  | (x, y) :: rest => x :: y :: flattenPoints rest

/-- bbox clipping of transform_parsing_instance_annotations: the applied box
.clip(min = 0), then np.minimum with list(image_size + image_size)[::-1],
which for image_size = (h, w) is (w, h, w, h). -/
def clipToImage (b : ℚ × ℚ × ℚ × ℚ) (image_size : Nat × Nat) : ℚ × ℚ × ℚ × ℚ :=
  let h := image_size.1
  let w := image_size.2
  (min (max b.1 0) (w : ℚ), min (max b.2.1 0) (h : ℚ),
   min (max b.2.2.1 0) (w : ℚ), min (max b.2.2.2 0) (h : ℚ))

/-- transform_parsing_instance_annotations from parsing_utils.py.  The dict
is mutated in place, so the result is the record as mutated so far paired
with the error raised, if any.  In the RLE branch the source passes the
module-level name cihp_flip_map to flip_parsing_instance_category; that
name is defined nowhere in the module, so evaluating the argument raises
NameError after the segmentation field has been written back. -/
def transform_parsing_instance_annotations {α : Type} (ann : Annotation α)
    (transforms : List Transform) (image_size : Nat × Nat)
    (parsing_flip_map : Option (List (Int × Int)) := none) :
    Annotation α × Option String :=
  let bbox0 := boxConvertToXYXY ann.bbox ann.bbox_mode
  let bbox1 := clipToImage (applyBoxList transforms bbox0) image_size
  let ann1 := { ann with bbox := bbox1, bbox_mode := BoxMode.XYXY_ABS }
  match ann1.segmentation with
  | none => (ann1, none)
  | some (Segmentation.polygons segm) =>
    match polysToPoints segm with
    | none => (ann1, some "ValueError: cannot reshape array")
    | some polygons =>
      let applied := applyPolyList transforms polygons
      let ann2 := { ann1 with
        segmentation := some (Segmentation.polygons (applied.map flattenPoints)) }
      match flip_parsing_instance_category ann2.category_id transforms parsing_flip_map with
      | Except.error e => (ann2, some e)
      | Except.ok c => ({ ann2 with category_id := c }, none)
  | some (Segmentation.rle r) =>
    let mask := applySegList transforms (rleDecode r)
    if maskShape mask = image_size then
      let ann2 := { ann1 with segmentation := some (Segmentation.maskSeg mask) }
      (ann2, some "NameError: name cihp_flip_map is not defined")
    else (ann1, some "AssertionError")
  | some (Segmentation.maskSeg _) =>
    (ann1, some "ValueError: Cannot transform segmentation of this type")

/-! ## Theorems -/

/-- C8: for positive source dimensions and a positive target size (W, H),
change_aspect_ratio w h (W / H) yields dimensions whose ratio is exactly
W / H, and neither dimension shrinks. -/
theorem c8_change_aspect_ratio (w h W H : ℚ) (hw : 0 < w) (hh : 0 < h)
    (hW : 0 < W) (hH : 0 < H) :
    (change_aspect_ratio w h (W / H)).1 / (change_aspect_ratio w h (W / H)).2 = W / H ∧
    w ≤ (change_aspect_ratio w h (W / H)).1 ∧
    h ≤ (change_aspect_ratio w h (W / H)).2 := by
  set ar := W / H with har_def
  have har : 0 < ar := div_pos hW hH
  unfold change_aspect_ratio
  split_ifs with h1 h2
  · refine ⟨?_, le_refl _, ?_⟩
    · dsimp only
      rw [mul_one, div_div_eq_mul_div]
      exact mul_div_cancel_left₀ ar (ne_of_gt hw)
    · dsimp only
      rw [mul_one, le_div_iff₀ har]
      rw [gt_iff_lt, mul_comm] at h1
      exact le_of_lt h1
  · refine ⟨?_, le_of_lt ?_, le_refl _⟩
    · dsimp only
      rw [mul_comm, mul_div_assoc, div_self (ne_of_gt hh), mul_one]
    · dsimp only
      rw [mul_comm]
      exact h2
  · have heq : w = ar * h := le_antisymm (not_lt.mp h1) (not_lt.mp h2)
    refine ⟨?_, le_refl _, le_refl _⟩
    dsimp only
    rw [heq, mul_div_assoc, div_self (ne_of_gt hh), mul_one]

/-- Witness for C8 at w = 1, h = 1, W = 2, H = 1. -/
theorem c8_witness :
    (change_aspect_ratio 1 1 ((2 : ℚ) / 1)).1 / (change_aspect_ratio 1 1 ((2 : ℚ) / 1)).2
      = (2 : ℚ) / 1 ∧
    (1 : ℚ) ≤ (change_aspect_ratio 1 1 ((2 : ℚ) / 1)).1 ∧
    (1 : ℚ) ≤ (change_aspect_ratio 1 1 ((2 : ℚ) / 1)).2 :=
  c8_change_aspect_ratio 1 1 2 1 (by norm_num) (by norm_num) (by norm_num) (by norm_num)

/-- C7: an entirely empty part mask (zero encoded area) makes the division
in compute_parsing_IoP fail; the result is non-finite, modelled as none,
returned synchronously. -/
theorem c7_iop_empty_part (person part : List (List Bool))
    (hempty : maskArea part = 0) :
    compute_parsing_IoP person part = none := by
  simp [compute_parsing_IoP, hempty]

/-- Witness for C7 at person = [[true]], part = [[false]]. -/
theorem c7_witness :
    maskArea [[false]] = 0 ∧ compute_parsing_IoP [[true]] [[false]] = none :=
  ⟨by decide, c7_iop_empty_part [[true]] [[false]] (by decide)⟩

/-- C1: the claim asserts the RLE branch updates category_id through
flip_parsing_instance_category with the parsing_flip_map parameter, as the
polygon branch does.  The code instead references the module-level name
cihp_flip_map, which is defined nowhere in the module, so the RLE branch
raises NameError and never consults the parameter: on an RLE annotation
with one horizontal flip and flip map [(1, 2)] the call errors with
category_id left at 1, while the same inputs with a polygon segmentation
flip category_id to 2. -/
theorem c1_rle_branch_name_error :
    (transform_parsing_instance_annotations
        (⟨(0, 0, 1, 1), BoxMode.XYXY_ABS, some (Segmentation.rle ⟨(1, 1), [0, 1]⟩), 1, ()⟩ :
          Annotation Unit)
        [⟨true, id, id, id⟩] (1, 1) (some [(1, 2)])).2
      = some "NameError: name cihp_flip_map is not defined" ∧
    ((transform_parsing_instance_annotations
        (⟨(0, 0, 1, 1), BoxMode.XYXY_ABS, some (Segmentation.rle ⟨(1, 1), [0, 1]⟩), 1, ()⟩ :
          Annotation Unit)
        [⟨true, id, id, id⟩] (1, 1) (some [(1, 2)])).1).category_id = 1 ∧
    ((transform_parsing_instance_annotations
        (⟨(0, 0, 1, 1), BoxMode.XYXY_ABS, some (Segmentation.polygons [[0, 0]]), 1, ()⟩ :
          Annotation Unit)
        [⟨true, id, id, id⟩] (1, 1) (some [(1, 2)])).1).category_id = 2 := by
  refine ⟨rfl, rfl, rfl⟩

/-- A category occurring in no pair is unchanged by the loop. -/
theorem applyFlipMap_of_not_mem (m : List (Int × Int)) (c : Int)
    (hc : c ∉ pairElems m) : applyFlipMap m c = c := by
  induction m with
  | nil => rfl
  | cons p rest ih =>
    obtain ⟨a, b⟩ := p
    simp only [pairElems, List.mem_cons, not_or] at hc
    obtain ⟨hca, hcb, hcr⟩ := hc
    simp only [applyFlipMap, List.foldl_cons] at *
    rw [show swapIfMatch c (a, b) = c from by simp [swapIfMatch, hca, hcb]]
    exact ih hcr

/-- Unfolding the loop one pair at a time. -/
theorem applyFlipMap_cons (a b : Int) (rest : List (Int × Int)) (c : Int) :
    applyFlipMap ((a, b) :: rest) c = applyFlipMap rest (swapIfMatch c (a, b)) := rfl

/-- With pairwise-distinct pair entries, the sequential if / elif loop
computes exactly the symmetric first-match lookup of the spec. -/
theorem applyFlipMap_eq_partnerSpec (m : List (Int × Int)) (c : Int)
    (hnd : (pairElems m).Nodup) : applyFlipMap m c = partnerSpec m c := by
  induction m generalizing c with
  | nil => rfl
  | cons p rest ih =>
    obtain ⟨a, b⟩ := p
    simp only [pairElems, List.nodup_cons, List.mem_cons, not_or] at hnd
    obtain ⟨⟨hab, har⟩, hbr, hr⟩ := hnd
    rw [applyFlipMap_cons]
    by_cases hca : c = a
    · rw [show swapIfMatch c (a, b) = b from by simp [swapIfMatch, hca],
        applyFlipMap_of_not_mem rest b hbr]
      simp [partnerSpec, hca]
    · by_cases hcb : c = b
      · rw [show swapIfMatch c (a, b) = a from by simp [swapIfMatch, hca, hcb],
          applyFlipMap_of_not_mem rest a har]
        have hba : ¬b = a := fun hE => hab hE.symm
        simp [partnerSpec, hca, hcb, hba]
      · rw [show swapIfMatch c (a, b) = c from by simp [swapIfMatch, hca, hcb], ih c hr]
        simp [partnerSpec, hca, hcb]

/-- The symmetric lookup either returns the input or a label of the map. -/
theorem partnerSpec_range (m : List (Int × Int)) (c : Int) :
    partnerSpec m c = c ∨ partnerSpec m c ∈ pairElems m := by
  induction m with
  | nil => exact Or.inl rfl
  | cons p rest ih =>
    obtain ⟨a, b⟩ := p
    by_cases hca : c = a
    · right
      simp [partnerSpec, pairElems, hca]
    · by_cases hcb : c = b
      · right
        simp [partnerSpec, pairElems, hca, hcb]
      · rw [show partnerSpec ((a, b) :: rest) c = partnerSpec rest c from by
          simp [partnerSpec, hca, hcb]]
        rcases ih with h | h
        · exact Or.inl h
        · right
          simp [pairElems, h]

/-- On a flip map with pairwise-distinct entries the symmetric lookup is an
involution. -/
theorem partnerSpec_involution (m : List (Int × Int)) (c : Int)
    (hnd : (pairElems m).Nodup) : partnerSpec m (partnerSpec m c) = c := by
  induction m generalizing c with
  | nil => rfl
  | cons p rest ih =>
    obtain ⟨a, b⟩ := p
    simp only [pairElems, List.nodup_cons, List.mem_cons, not_or] at hnd
    obtain ⟨⟨hab, har⟩, hbr, hr⟩ := hnd
    have hba : ¬b = a := fun hE => hab hE.symm
    by_cases hca : c = a
    · rw [show partnerSpec ((a, b) :: rest) c = b from by simp [partnerSpec, hca]]
      simp [partnerSpec, hba, hca.symm]
    · by_cases hcb : c = b
      · rw [show partnerSpec ((a, b) :: rest) c = a from by simp [partnerSpec, hca, hcb]]
        simp [partnerSpec, hcb.symm]
      · rw [show partnerSpec ((a, b) :: rest) c = partnerSpec rest c from by
          simp [partnerSpec, hca, hcb]]
        have hrange := partnerSpec_range rest c
        have hua : partnerSpec rest c ≠ a := by
          rcases hrange with h | h
          · rw [h]; exact hca
          · exact fun hE => har (hE ▸ h)
        have hub : partnerSpec rest c ≠ b := by
          rcases hrange with h | h
          · rw [h]; exact hcb
          · exact fun hE => hbr (hE ▸ h)
        rw [show partnerSpec ((a, b) :: rest) (partnerSpec rest c)
            = partnerSpec rest (partnerSpec rest c) from by
          simp [partnerSpec, hua, hub]]
        exact ih c hr

/-- C4: with a flip map of disjoint pairs, an even number of horizontal
flip transforms leaves the category unchanged, an odd number swaps it
exactly once to its partner under the map, and a category occurring in no
pair is unchanged either way. -/
theorem c4_flip_category_parity (category : Int) (ts : List Transform)
    (m : List (Int × Int)) (hnd : (pairElems m).Nodup) :
    (countHFlip ts % 2 = 0 →
      flip_parsing_instance_category category ts (some m) = Except.ok category) ∧
    (countHFlip ts % 2 = 1 →
      flip_parsing_instance_category category ts (some m)
        = Except.ok (partnerSpec m category)) ∧
    (category ∉ pairElems m →
      flip_parsing_instance_category category ts (some m) = Except.ok category) := by
  unfold flip_parsing_instance_category
  refine ⟨?_, ?_, ?_⟩
  · intro heven
    rw [if_neg (by omega)]
  · intro hodd
    rw [if_pos hodd]
    exact congrArg Except.ok (applyFlipMap_eq_partnerSpec m category hnd)
  · intro hnm
    by_cases hodd : countHFlip ts % 2 = 1
    · rw [if_pos hodd]
      exact congrArg Except.ok (applyFlipMap_of_not_mem m category hnm)
    · rw [if_neg hodd]

/-- Witness for C4 with flip map [(1, 2)], one flip transform and category 1. -/
theorem c4_witness :
    (countHFlip [⟨true, id, id, id⟩] % 2 = 0 →
      flip_parsing_instance_category 1 [⟨true, id, id, id⟩] (some [(1, 2)])
        = Except.ok 1) ∧
    (countHFlip [⟨true, id, id, id⟩] % 2 = 1 →
      flip_parsing_instance_category 1 [⟨true, id, id, id⟩] (some [(1, 2)])
        = Except.ok (partnerSpec [(1, 2)] 1)) ∧
    ((1 : Int) ∉ pairElems [(1, 2)] →
      flip_parsing_instance_category 1 [⟨true, id, id, id⟩] (some [(1, 2)])
        = Except.ok 1) :=
  c4_flip_category_parity 1 [⟨true, id, id, id⟩] [(1, 2)] (by decide)

/-- The whole-array remap pass acts pointwise as the category loop: each
pixel value is sent through the pairs in order. -/
theorem remapPass_eq_map (m : List (Int × Int)) (gt : List (List Int)) :
    remapPass gt m = gt.map (List.map (applyFlipMap m)) := by
  induction m generalizing gt with
  | nil =>
    simp only [remapPass, List.foldl_nil]
    have : applyFlipMap [] = fun c => c := rfl
    rw [this]
    simp
  | cons p rest ih =>
    obtain ⟨a, b⟩ := p
    simp only [remapPass, List.foldl_cons] at *
    rw [ih (swapLabels gt a b)]
    simp only [swapLabels, List.map_map]
    congr 1
    funext row
    simp only [Function.comp, List.map_map]
    congr 1

/-- C5: with an involutive pairing (pairwise-distinct, non-self-referential
pairs), the label-remap pass of flip_parsing_semantic_category applied
twice is the identity on label maps. -/
theorem c5_remap_involution (gt : List (List Int)) (m : List (Int × Int))
    (hnd : (pairElems m).Nodup) (hself : ∀ p ∈ m, p.1 ≠ p.2) :
    remapPass (remapPass gt m) m = gt := by
  have hinv : ∀ c : Int, applyFlipMap m (applyFlipMap m c) = c := by
    intro c
    rw [applyFlipMap_eq_partnerSpec m c hnd,
      applyFlipMap_eq_partnerSpec m (partnerSpec m c) hnd,
      partnerSpec_involution m c hnd]
  rw [remapPass_eq_map, remapPass_eq_map, List.map_map]
  have hrow : ∀ row : List Int,
      (List.map (applyFlipMap m) ∘ List.map (applyFlipMap m)) row = row := by
    intro row
    simp only [Function.comp, List.map_map]
    induction row with
    | nil => rfl
    | cons x xs ihr => simp only [List.map_cons, Function.comp, hinv, ihr]
  induction gt with
  | nil => rfl
  | cons r rows ihg => simp only [List.map_cons, hrow r, ihg]

/-- Witness for C5 with flip map [(2, 3)] and a label map over 0, 2, 3, 255. -/
theorem c5_witness :
    remapPass (remapPass [[0, 2], [3, 255]] [(2, 3)]) [(2, 3)] = [[0, 2], [3, 255]] :=
  c5_remap_involution [[0, 2], [3, 255]] [(2, 3)] (by decide) (by decide)

/-- Pixelwise AND of a row with itself. -/
theorem zipWith_and_self (a : List Bool) : List.zipWith and a a = a := by
  induction a with
  | nil => rfl
  | cons x xs ih => simp [List.zipWith_cons_cons, ih]

/-- A mask intersected with itself. -/
theorem maskIntersect_self (m : List (List Bool)) : maskIntersect m m = m := by
  unfold maskIntersect
  induction m with
  | nil => rfl
  | cons r rest ih =>
    simp only [List.zipWith_cons_cons, zipWith_and_self r]
    rw [ih]

/-- Set pixels of an AND row are at most those of the second row. -/
theorem countP_zipWith_and_le (a b : List Bool) :
    (List.zipWith and a b).countP (fun x => x) ≤ b.countP (fun x => x) := by
  induction a generalizing b with
  | nil => simp
  | cons x xs ih =>
    cases b with
    | nil => simp
    | cons y ys =>
      simp only [List.zipWith_cons_cons, List.countP_cons]
      have h := ih ys
      cases x <;> cases y <;> simp <;> omega

/-- Intersection area is at most the second mask area. -/
theorem maskArea_intersect_le (p q : List (List Bool)) :
    maskArea (maskIntersect p q) ≤ maskArea q := by
  unfold maskArea maskIntersect
  induction p generalizing q with
  | nil => simp
  | cons r rest ih =>
    cases q with
    | nil => simp
    | cons s qs =>
      simp only [List.zipWith_cons_cons, List.map_cons, List.sum_cons]
      exact Nat.add_le_add (countP_zipWith_and_le r s) (ih qs)

/-- getD through a pixelwise AND of rows. -/
theorem getD_zipWith_and (a b : List Bool) (j : Nat) :
    (List.zipWith and a b).getD j false = ((a.getD j false) && (b.getD j false)) := by
  induction a generalizing b j with
  | nil => simp
  | cons x xs ih =>
    cases b with
    | nil => simp
    | cons y ys =>
      cases j with
      | zero => simp [List.zipWith_cons_cons]
      | succ n => simpa [List.zipWith_cons_cons] using ih ys n

/-- Pixel lookup through the mask intersection. -/
theorem maskGet_intersect (p q : List (List Bool)) (i j : Nat) :
    maskGet (maskIntersect p q) i j = (maskGet p i j && maskGet q i j) := by
  unfold maskGet maskIntersect
  induction p generalizing q i with
  | nil => simp
  | cons r rest ih =>
    cases q with
    | nil => simp
    | cons s qs =>
      cases i with
      | zero => simpa [List.zipWith_cons_cons] using getD_zipWith_and r s j
      | succ n => simpa [List.zipWith_cons_cons] using ih qs n

/-- A row whose every getD is false has no set entries. -/
theorem countP_eq_zero_of_getD (l : List Bool)
    (h : ∀ j : Nat, l.getD j false = false) : l.countP (fun x => x) = 0 := by
  induction l with
  | nil => rfl
  | cons c t ih =>
    have hc : c = false := h 0
    have ht : ∀ j : Nat, t.getD j false = false := fun j => h (j + 1)
    simp [List.countP_cons, hc, ih ht]

/-- A mask whose every pixel is false has zero area. -/
theorem maskArea_eq_zero_of_get (m : List (List Bool))
    (h : ∀ i j : Nat, maskGet m i j = false) : maskArea m = 0 := by
  induction m with
  | nil => rfl
  | cons row rest ih =>
    have hrow : row.countP (fun x => x) = 0 :=
      countP_eq_zero_of_getD row (fun j => h 0 j)
    have hrest : maskArea rest = 0 :=
      ih (fun i j => h (i + 1) j)
    simp only [maskArea, List.map_cons, List.sum_cons] at *
    omega

/-- C6: with a non-empty part mask, identical masks give IoP exactly 1,
disjoint masks give exactly 0, and in general the ratio is in [0, 1]. -/
theorem c6_iop_bounds (person part : List (List Bool)) (h w : Nat)
    (hp : shape2 person h w) (hq : shape2 part h w)
    (hne : maskArea part ≠ 0) :
    (person = part → compute_parsing_IoP person part = some 1) ∧
    (masksDisjoint person part → compute_parsing_IoP person part = some 0) ∧
    (∃ q : ℚ, compute_parsing_IoP person part = some q ∧ 0 ≤ q ∧ q ≤ 1) := by
  have hpos : 0 < (maskArea part : ℚ) := by
    exact_mod_cast Nat.pos_of_ne_zero hne
  refine ⟨?_, ?_, ?_⟩
  · intro heq
    subst heq
    rw [show compute_parsing_IoP person person
        = some ((maskArea (maskIntersect person person) : ℚ) / (maskArea person : ℚ))
      from by simp [compute_parsing_IoP, hne]]
    rw [maskIntersect_self person]
    rw [div_self (ne_of_gt hpos)]
  · intro hd
    have hzero : maskArea (maskIntersect person part) = 0 := by
      apply maskArea_eq_zero_of_get
      intro i j
      rw [maskGet_intersect]
      rcases hd i j with hcase | hcase <;> simp [hcase]
    simp [compute_parsing_IoP, hne, hzero]
  · refine ⟨(maskArea (maskIntersect person part) : ℚ) / (maskArea part : ℚ),
      by simp [compute_parsing_IoP, hne], ?_, ?_⟩
    · positivity
    · rw [div_le_one hpos]
      exact_mod_cast maskArea_intersect_le person part

/-- Witness for C6 at person = part = [[true]]. -/
theorem c6_witness :
    ([[true]] = [[true]] → compute_parsing_IoP [[true]] [[true]] = some 1) ∧
    (masksDisjoint [[true]] [[true]] → compute_parsing_IoP [[true]] [[true]] = some 0) ∧
    (∃ q : ℚ, compute_parsing_IoP [[true]] [[true]] = some q ∧ 0 ≤ q ∧ q ≤ 1) :=
  c6_iop_bounds [[true]] [[true]] 1 1 (by simp [shape2]) (by simp [shape2]) (by decide)

/-- Whatever the segmentation branch does, the returned record carries the
converted, transformed, clipped box and bbox_mode XYXY_ABS. -/
theorem transform_fst_fields {α : Type} (ann : Annotation α) (ts : List Transform)
    (sz : Nat × Nat) (pfm : Option (List (Int × Int))) :
    ((transform_parsing_instance_annotations ann ts sz pfm).1).bbox
      = clipToImage (applyBoxList ts (boxConvertToXYXY ann.bbox ann.bbox_mode)) sz ∧
    ((transform_parsing_instance_annotations ann ts sz pfm).1).bbox_mode
      = BoxMode.XYXY_ABS := by
  rcases ann with ⟨bb, mode, seg, cat, ex⟩
  unfold transform_parsing_instance_annotations
  dsimp only
  rcases seg with _ | s
  · exact ⟨rfl, rfl⟩
  rcases s with ps | r | mk
  · dsimp only
    rcases hpp : polysToPoints ps with _ | polys
    · exact ⟨rfl, rfl⟩
    · dsimp only
      rcases hfc : flip_parsing_instance_category cat ts pfm with e | c
      · exact ⟨rfl, rfl⟩
      · exact ⟨rfl, rfl⟩
  · dsimp only
    by_cases hsh : maskShape (applySegList ts (rleDecode r)) = sz
    · rw [if_pos hsh]
      exact ⟨rfl, rfl⟩
    · rw [if_neg hsh]
      exact ⟨rfl, rfl⟩
  · exact ⟨rfl, rfl⟩

/-- Every coordinate of a clipped box lies inside the image bounds. -/
theorem clipToImage_bounds (b : ℚ × ℚ × ℚ × ℚ) (h w : Nat) :
    (0 ≤ (clipToImage b (h, w)).1 ∧ (clipToImage b (h, w)).1 ≤ (w : ℚ)) ∧
    (0 ≤ (clipToImage b (h, w)).2.1 ∧ (clipToImage b (h, w)).2.1 ≤ (h : ℚ)) ∧
    (0 ≤ (clipToImage b (h, w)).2.2.1 ∧ (clipToImage b (h, w)).2.2.1 ≤ (w : ℚ)) ∧
    (0 ≤ (clipToImage b (h, w)).2.2.2 ∧ (clipToImage b (h, w)).2.2.2 ≤ (h : ℚ)) := by
  unfold clipToImage
  refine ⟨⟨?_, ?_⟩, ⟨?_, ?_⟩, ⟨?_, ?_⟩, ⟨?_, ?_⟩⟩ <;>
    first
      | exact le_min (le_max_right _ _) (Nat.cast_nonneg _)
      | exact min_le_right _ _

/-- C2: for every input annotation, transform sequence and declared
image_size (h, w), the bbox written by transform_parsing_instance_annotations
has x coordinates in [0, w], y coordinates in [0, h], and bbox_mode is set
to XYXY_ABS; this holds in every branch, the error branches included. -/
theorem c2_bbox_in_bounds {α : Type} (ann : Annotation α) (ts : List Transform)
    (h w : Nat) (pfm : Option (List (Int × Int))) :
    (0 ≤ ((transform_parsing_instance_annotations ann ts (h, w) pfm).1).bbox.1 ∧
      ((transform_parsing_instance_annotations ann ts (h, w) pfm).1).bbox.1 ≤ (w : ℚ)) ∧
    (0 ≤ ((transform_parsing_instance_annotations ann ts (h, w) pfm).1).bbox.2.1 ∧
      ((transform_parsing_instance_annotations ann ts (h, w) pfm).1).bbox.2.1 ≤ (h : ℚ)) ∧
    (0 ≤ ((transform_parsing_instance_annotations ann ts (h, w) pfm).1).bbox.2.2.1 ∧
      ((transform_parsing_instance_annotations ann ts (h, w) pfm).1).bbox.2.2.1 ≤ (w : ℚ)) ∧
    (0 ≤ ((transform_parsing_instance_annotations ann ts (h, w) pfm).1).bbox.2.2.2 ∧
      ((transform_parsing_instance_annotations ann ts (h, w) pfm).1).bbox.2.2.2 ≤ (h : ℚ)) ∧
    ((transform_parsing_instance_annotations ann ts (h, w) pfm).1).bbox_mode
      = BoxMode.XYXY_ABS := by
  obtain ⟨hbox, hmode⟩ := transform_fst_fields ann ts (h, w) pfm
  rw [hbox, hmode]
  obtain ⟨h1, h2, h3, h4⟩ :=
    clipToImage_bounds (applyBoxList ts (boxConvertToXYXY ann.bbox ann.bbox_mode)) h w
  exact ⟨h1, h2, h3, h4, rfl⟩

/-- C10: a record with no segmentation key gets only bbox and bbox_mode
rewritten: category_id, the missing segmentation and every other field are
untouched, the category flipper is never consulted, and no error is raised
whether or not a flip map is supplied. -/
theorem c10_no_segmentation_frame {α : Type} (ann : Annotation α)
    (ts : List Transform) (sz : Nat × Nat) (pfm : Option (List (Int × Int)))
    (hseg : ann.segmentation = none) :
    (transform_parsing_instance_annotations ann ts sz pfm).2 = none ∧
    ((transform_parsing_instance_annotations ann ts sz pfm).1).category_id
      = ann.category_id ∧
    ((transform_parsing_instance_annotations ann ts sz pfm).1).segmentation = none ∧
    ((transform_parsing_instance_annotations ann ts sz pfm).1).extra = ann.extra := by
  rcases ann with ⟨bb, mode, seg, cat, ex⟩
  dsimp only at hseg
  subst hseg
  exact ⟨rfl, rfl, rfl, rfl⟩

/-- Witness for C10 on a record without segmentation, with no flip map. -/
theorem c10_witness :
    (transform_parsing_instance_annotations
        (⟨(0, 0, 2, 2), BoxMode.XYWH_ABS, none, 5, 7⟩ : Annotation Nat)
        [⟨true, id, id, id⟩] (4, 4) none).2 = none ∧
    ((transform_parsing_instance_annotations
        (⟨(0, 0, 2, 2), BoxMode.XYWH_ABS, none, 5, 7⟩ : Annotation Nat)
        [⟨true, id, id, id⟩] (4, 4) none).1).category_id = 5 ∧
    ((transform_parsing_instance_annotations
        (⟨(0, 0, 2, 2), BoxMode.XYWH_ABS, none, 5, 7⟩ : Annotation Nat)
        [⟨true, id, id, id⟩] (4, 4) none).1).segmentation = none ∧
    ((transform_parsing_instance_annotations
        (⟨(0, 0, 2, 2), BoxMode.XYWH_ABS, none, 5, 7⟩ : Annotation Nat)
        [⟨true, id, id, id⟩] (4, 4) none).1).extra = 7 :=
  c10_no_segmentation_frame
    (⟨(0, 0, 2, 2), BoxMode.XYWH_ABS, none, 5, 7⟩ : Annotation Nat)
    [⟨true, id, id, id⟩] (4, 4) none rfl

/-- Slice assignment preserves the length of the destination. -/
theorem length_assignSeg (d : List α) (a : Nat) (s : List α) :
    (assignSeg d a s).length = d.length := by
  induction d generalizing a s with
  | nil => rfl
  | cons x xs ih =>
    cases a with
    | zero =>
      cases s with
      | nil => rfl
      | cons y ys => simp [assignSeg, ih]
    | succ n => simp [assignSeg, ih]

/-- Every element of a slice assignment comes from the destination or the
source. -/
theorem mem_assignSeg {d : List α} {a : Nat} {s : List α} {x : α}
    (hx : x ∈ assignSeg d a s) : x ∈ d ∨ x ∈ s := by
  induction d generalizing a s with
  | nil => simp [assignSeg] at hx
  | cons y ys ih =>
    cases a with
    | zero =>
      cases s with
      | nil => exact Or.inl hx
      | cons z zs =>
        simp only [assignSeg, List.mem_cons] at hx
        rcases hx with hx | hx
        · exact Or.inr (by simp [hx])
        · rcases ih hx with h | h
          · exact Or.inl (by simp [h])
          · exact Or.inr (by simp [h])
    | succ n =>
      simp only [assignSeg, List.mem_cons] at hx
      rcases hx with hx | hx
      · exact Or.inl (by simp [hx])
      · rcases ih hx with h | h
        · exact Or.inl (by simp [h])
        · exact Or.inr h

/-- Region assignment preserves the number of rows. -/
theorem length_assignRegion (d : List (List α)) (r0 c0 : Nat) (s : List (List α)) :
    (assignRegion d r0 c0 s).length = d.length := by
  induction d generalizing r0 s with
  | nil => rfl
  | cons row rest ih =>
    cases r0 with
    | zero =>
      cases s with
      | nil => rfl
      | cons t ts => simp [assignRegion, ih]
    | succ n => simp [assignRegion, ih]

/-- Every row of a region assignment is a row of the destination or a slice
assignment of a destination row with a source row. -/
theorem mem_assignRegion {d : List (List α)} {r0 c0 : Nat} {s : List (List α)}
    {row : List α} (hrow : row ∈ assignRegion d r0 c0 s) :
    row ∈ d ∨ ∃ rd ∈ d, ∃ rs ∈ s, row = assignSeg rd c0 rs := by
  induction d generalizing r0 s with
  | nil => simp [assignRegion] at hrow
  | cons y ys ih =>
    cases r0 with
    | zero =>
      cases s with
      | nil => exact Or.inl hrow
      | cons t ts =>
        simp only [assignRegion, List.mem_cons] at hrow
        rcases hrow with hrow | hrow
        · exact Or.inr ⟨y, by simp, t, by simp, hrow⟩
        · rcases ih hrow with h | ⟨rd, hrd, rs, hrs, heq⟩
          · exact Or.inl (by simp [h])
          · exact Or.inr ⟨rd, by simp [hrd], rs, by simp [hrs], heq⟩
    | succ n =>
      simp only [assignRegion, List.mem_cons] at hrow
      rcases hrow with hrow | hrow
      · exact Or.inl (by simp [hrow])
      · rcases ih hrow with h | ⟨rd, hrd, rs, hrs, heq⟩
        · exact Or.inl (by simp [h])
        · exact Or.inr ⟨rd, by simp [hrd], rs, hrs, heq⟩

/-- The length of a slice. -/
theorem length_sliceRows (m : List α) (a b : Nat) :
    (sliceRows m a b).length = min (b - a) (m.length - a) := by
  simp [sliceRows]

/-- Slices select from the original list. -/
theorem mem_sliceRows {m : List α} {a b : Nat} {x : α} (hx : x ∈ sliceRows m a b) :
    x ∈ m := by
  exact List.drop_subset a m (List.take_subset _ _ hx)

/-- The head of a nonempty list is a member. -/
theorem headD_mem {m : List α} (hm : m ≠ []) (d : α) : m.headD d ∈ m := by
  cases m with
  | nil => exact absurd rfl hm
  | cons x xs => simp [List.headD]

/-- Shape of the mid-gray image canvas. -/
theorem shape3_fillImg (t0 t1 : Nat) : shape3 (fillImg t0 t1) t1 t0 3 := by
  refine ⟨by simp [fillImg], ?_⟩
  intro row hrow
  rw [List.eq_of_mem_replicate hrow]
  refine ⟨by simp, ?_⟩
  intro px hpx
  rw [List.eq_of_mem_replicate hpx]
  simp

/-- Shape of the ignore-label canvas. -/
theorem shape2_fillGt (t0 t1 : Nat) : shape2 (fillGt t0 t1) t1 t0 := by
  refine ⟨by simp [fillGt], ?_⟩
  intro row hrow
  rw [List.eq_of_mem_replicate hrow]
  simp

/-- Region assignment preserves a 2-d shape regardless of the source rows,
because writing into a row never changes its length. -/
theorem shape2_assignRegion {d : List (List α)} {h w : Nat} (r0 c0 : Nat)
    {s : List (List α)} (hd : shape2 d h w) :
    shape2 (assignRegion d r0 c0 s) h w := by
  refine ⟨by rw [length_assignRegion]; exact hd.1, ?_⟩
  intro row hrow
  rcases mem_assignRegion hrow with hmem | ⟨rd, hrd, rs, hrs, heq⟩
  · exact hd.2 row hmem
  · rw [heq, length_assignSeg]
    exact hd.2 rd hrd

/-- Region assignment preserves a 3-d shape provided the source pixels have
the right channel count. -/
theorem shape3_assignRegion {d : List (List (List α))} {h w c : Nat} (r0 c0 : Nat)
    {s : List (List (List α))} (hd : shape3 d h w c)
    (hs : ∀ row ∈ s, ∀ px ∈ row, px.length = c) :
    shape3 (assignRegion d r0 c0 s) h w c := by
  refine ⟨by rw [length_assignRegion]; exact hd.1, ?_⟩
  intro row hrow
  rcases mem_assignRegion hrow with hmem | ⟨rd, hrd, rs, hrs, heq⟩
  · exact hd.2 row hmem
  · refine ⟨by rw [heq, length_assignSeg]; exact (hd.2 rd hrd).1, ?_⟩
    intro px hpx
    rw [heq] at hpx
    rcases mem_assignSeg hpx with hp | hp
    · exact (hd.2 rd hrd).2 px hp
    · exact hs rs hrs px hp

/-- A 3-d shape is a 2-d shape plus a channel count on every pixel. -/
theorem shape3_iff {m : List (List (List α))} {h w c : Nat} :
    shape3 m h w c ↔
      shape2 m h w ∧ ∀ row ∈ m, ∀ px ∈ row, px.length = c := by
  constructor
  · intro hs
    exact ⟨⟨hs.1, fun row hr => (hs.2 row hr).1⟩, fun row hr => (hs.2 row hr).2⟩
  · intro hs
    exact ⟨hs.1.1, fun row hr => ⟨hs.1.2 row hr, hs.2 row hr⟩⟩

/-- Centre-cropping both dimensions yields exactly the target 2-d shape. -/
theorem shape2_cropBoth {m : List (List α)} {h w t0 t1 : Nat} (hm : shape2 m h w)
    (ht1 : t1 < h) (ht0 : t0 < w) :
    shape2 ((sliceRows m (cropRange h t1).1 (cropRange h t1).2).map
      (fun row => sliceRows row (cropRange w t0).1 (cropRange w t0).2)) t1 t0 := by
  constructor
  · rw [List.length_map, length_sliceRows, hm.1]
    simp only [cropRange]
    omega
  · intro row hrow
    rw [List.mem_map] at hrow
    obtain ⟨r, hr, rfl⟩ := hrow
    rw [length_sliceRows, hm.2 r (mem_sliceRows hr)]
    simp only [cropRange]
    omega

/-- C3: for every source image with a same-size label map and every target
(t0 width, t1 height), center_to_target_size returns an image of shape
exactly (t1, t0, 3) and a label map of shape exactly (t1, t0), in all four
crop / pad cases. -/
theorem c3_center_to_target_size_shapes (img : List (List (List Nat)))
    (gt : List (List Nat)) (h w t0 t1 : Nat)
    (hi : shape3 img h w 3) (hg : shape2 gt h w) :
    shape3 (center_to_target_size img gt (t0, t1)).1 t1 t0 3 ∧
    shape2 (center_to_target_size img gt (t0, t1)).2 t1 t0 := by
  have hlen : img.length = h := hi.1
  have hglen : gt.length = h := hg.1
  simp only [center_to_target_size]
  split_ifs with hc1 hc2 hc3
  · -- crop both dimensions
    have hpos : img ≠ [] := by
      intro hE
      rw [hE] at hc1
      simp at hc1
    have hwW : (img.headD []).length = w := (hi.2 _ (headD_mem hpos [])).1
    rw [hlen, hwW] at hc1 ⊢
    constructor
    · rw [shape3_iff]
      refine ⟨shape2_cropBoth (shape3_iff.mp hi).1 hc1.1 hc1.2, ?_⟩
      intro row hrow px hpx
      rw [List.mem_map] at hrow
      obtain ⟨r, hr, rfl⟩ := hrow
      exact (hi.2 r (mem_sliceRows hr)).2 px (mem_sliceRows hpx)
    · exact shape2_cropBoth hg hc1.1 hc1.2
  · -- crop height, pad width
    constructor
    · rw [shape3_iff]
      refine ⟨(shape3_iff.mp (shape3_fillImg t0 t1)).1
          |> shape2_assignRegion 0 _, ?_⟩
      intro row hrow px hpx
      rcases mem_assignRegion hrow with hmem | ⟨rd, hrd, rs, hrs, rfl⟩
      · exact (shape3_fillImg t0 t1).2 row hmem |>.2 px hpx
      · rcases mem_assignSeg hpx with hp | hp
        · exact ((shape3_fillImg t0 t1).2 rd hrd).2 px hp
        · exact (hi.2 rs (mem_sliceRows hrs)).2 px hp
    · exact shape2_assignRegion 0 _ (shape2_fillGt t0 t1)
  · -- crop width, pad height
    constructor
    · rw [shape3_iff]
      refine ⟨(shape3_iff.mp (shape3_fillImg t0 t1)).1
          |> shape2_assignRegion _ 0, ?_⟩
      intro row hrow px hpx
      rcases mem_assignRegion hrow with hmem | ⟨rd, hrd, rs, hrs, rfl⟩
      · exact (shape3_fillImg t0 t1).2 row hmem |>.2 px hpx
      · rcases mem_assignSeg hpx with hp | hp
        · exact ((shape3_fillImg t0 t1).2 rd hrd).2 px hp
        · rw [List.mem_map] at hrs
          obtain ⟨r, hr, rfl⟩ := hrs
          exact (hi.2 r hr).2 px (mem_sliceRows hp)
    · exact shape2_assignRegion _ 0 (shape2_fillGt t0 t1)
  · -- pad both dimensions
    constructor
    · rw [shape3_iff]
      refine ⟨(shape3_iff.mp (shape3_fillImg t0 t1)).1
          |> shape2_assignRegion _ _, ?_⟩
      intro row hrow px hpx
      rcases mem_assignRegion hrow with hmem | ⟨rd, hrd, rs, hrs, rfl⟩
      · exact (shape3_fillImg t0 t1).2 row hmem |>.2 px hpx
      · rcases mem_assignSeg hpx with hp | hp
        · exact ((shape3_fillImg t0 t1).2 rd hrd).2 px hp
        · exact (hi.2 rs hrs).2 px hp
    · exact shape2_assignRegion _ _ (shape2_fillGt t0 t1)

/-- Witness for C3 with a 1 by 1 source and target size (2, 3). -/
theorem c3_witness :
    shape3 (center_to_target_size [[[9, 9, 9]]] [[4]] (2, 3)).1 3 2 3 ∧
    shape2 (center_to_target_size [[[9, 9, 9]]] [[4]] (2, 3)).2 3 2 :=
  c3_center_to_target_size_shapes [[[9, 9, 9]]] [[4]] 1 1 2 3
    (by simp [shape3]) (by simp [shape2])

/-- C9: a 50 by 100 source with target (80, 80) takes the crop-width /
pad-height branch; the width crop range on the source is (10, 90) and the
height pad range on the canvas is (15, 65), both by floor division of the
size difference by 2, and the output is the fill canvas with the
width-cropped source written at row offset 15. -/
theorem c9_center_example (img : List (List (List Nat))) (gt : List (List Nat))
    (hi : shape3 img 50 100 3) (hg : shape2 gt 50 100) :
    center_to_target_size img gt (80, 80)
      = (assignRegion (fillImg 80 80) 15 0 (img.map (fun row => sliceRows row 10 90)),
         assignRegion (fillGt 80 80) 15 0 (gt.map (fun row => sliceRows row 10 90))) ∧
    cropRange 100 80 = (10, 90) ∧ padRange 50 80 = (15, 65) := by
  have hlen : img.length = 50 := hi.1
  have hpos : img ≠ [] := by
    intro hE
    rw [hE] at hlen
    simp at hlen
  have hwW : (img.headD []).length = 100 := (hi.2 _ (headD_mem hpos [])).1
  refine ⟨?_, by decide, by decide⟩
  simp only [center_to_target_size, hlen, hwW, cropRange, padRange]
  split_ifs with h1 h2 h3
  · exact absurd h1 (by omega)
  · exact absurd h2 (by omega)
  · norm_num
  · exact absurd (by omega : (50 : Nat) ≤ 80 ∧ (100 : Nat) > 80) h3

/-- Witness for C9 on the constant 50 by 100 image. -/
theorem c9_witness :
    cropRange 100 80 = (10, 90) ∧ padRange 50 80 = (15, 65) :=
  ⟨(c9_center_example (List.replicate 50 (List.replicate 100 [0, 0, 0]))
      (List.replicate 50 (List.replicate 100 0))
      (by refine ⟨by simp, ?_⟩
          intro row hrow
          rw [List.eq_of_mem_replicate hrow]
          refine ⟨by simp, ?_⟩
          intro px hpx
          rw [List.eq_of_mem_replicate hpx]
          rfl)
      (by refine ⟨by simp, ?_⟩
          intro row hrow
          rw [List.eq_of_mem_replicate hrow]
          simp)).2.1,
   (c9_center_example (List.replicate 50 (List.replicate 100 [0, 0, 0]))
      (List.replicate 50 (List.replicate 100 0))
      (by refine ⟨by simp, ?_⟩
          intro row hrow
          rw [List.eq_of_mem_replicate hrow]
          refine ⟨by simp, ?_⟩
          intro px hpx
          rw [List.eq_of_mem_replicate hpx]
          rfl)
      (by refine ⟨by simp, ?_⟩
          intro row hrow
          rw [List.eq_of_mem_replicate hrow]
          simp)).2.2⟩
